import Mathlib

/-!
Shallow embedding of the CartpoleRL core: the cart-pole physics environment
(`CartPoleEnv.step` from `src/services/cartPole.ts`), the policy-gradient agent
(`PolicyGradientAgent` from `src/services/agent.ts`) and the math helpers from
`src/services/math.ts`.

Modelling conventions:
- JavaScript numbers are modelled as exact rationals (`ℚ`); the transcendental
  library functions `Math.sin`, `Math.cos`, `Math.tanh`, `Math.exp`,
  `Math.sqrt` and the constant `Math.PI` are not rational-valued, so they are
  threaded through the definitions as explicit parameters
  (`sinQ cosQ tanhQ expQ sqrtQ : ℚ → ℚ`, `piQ : ℚ`).
- `Math.random()` draws are threaded as an explicit parameter `u`.
- JS arrays are modelled as `List ℚ` / `List (List ℚ)`; the JS index read
  `xs[i]` is modelled as `List.getD xs i 0`, and the index-bounded update
  loops of the source are modelled with `List.mapIdx` over the stored arrays
  (which coincides with the source loops for an agent whose arrays have their
  constructed dimensions).
- For the aliasing behaviour of `getWeights` (which returns an object whose
  fields are the same array references as the live parameters) a small
  reference/heap model is used at the end of the definitions section.
-/

/-- The four-component physical state of the cart-pole system
(fields as in `CartPoleState` of `src/types.ts`). -/
structure CartPoleState where
  x : ℚ
  xDot : ℚ
  theta : ℚ
  thetaDot : ℚ
deriving DecidableEq

/-- Result record of `CartPoleEnv.step`. -/
structure StepResult where
  nextState : CartPoleState
  reward : ℚ
  done : Bool
deriving DecidableEq

namespace CartPoleEnv

/-- `gravity = 9.8` in the source. -/
def gravity : ℚ := 9.8

/-- `massCart = 1.0` in the source. -/
def massCart : ℚ := 1.0

/-- `massPole = 0.1` in the source. -/
def massPole : ℚ := 0.1

/-- `totalMass = 1.1` in the source. -/
def totalMass : ℚ := 1.1

/-- `length = 0.5` in the source (half the pole's length). -/
def length : ℚ := 0.5

/-- `poleMassLength = 0.05` in the source. -/
def poleMassLength : ℚ := 0.05

/-- `forceMag = 10.0` in the source. -/
def forceMag : ℚ := 10.0

/-- `tau = 0.02` in the source (seconds between state updates). -/
def tau : ℚ := 0.02

/-- `CARTPOLE_THRESHOLDS.x = 2.4` from `src/types.ts`. -/
def xThreshold : ℚ := 2.4

/-- `CARTPOLE_THRESHOLDS.theta = 12 * (Math.PI / 180)` from `src/types.ts`;
`piQ` stands for `Math.PI`. -/
def thetaThreshold (piQ : ℚ) : ℚ := 12 * (piQ / 180)

/-- The force applied by `step`: `action === 1 ? this.forceMag : -this.forceMag`. -/
def forceOf (action : ℚ) : ℚ := if action = 1 then forceMag else -forceMag

/-- `CartPoleEnv.step` from the source: Barto-Sutton-Anderson dynamics followed
by an explicit Euler update and the termination check against the thresholds.
`sinQ`, `cosQ` stand for `Math.sin`, `Math.cos` and `piQ` for `Math.PI`. -/
def step (sinQ cosQ : ℚ → ℚ) (piQ : ℚ) (s : CartPoleState) (action : ℚ) : StepResult :=
  let force := forceOf action
  let costheta := cosQ s.theta
  let sintheta := sinQ s.theta
  let temp := (force + poleMassLength * s.thetaDot * s.thetaDot * sintheta) / totalMass
  let thetaAcc := (gravity * sintheta - costheta * temp) /
      (length * (4 / 3 - massPole * costheta * costheta / totalMass))
  let xAcc := temp - poleMassLength * thetaAcc * costheta / totalMass
  let nextX := s.x + tau * s.xDot
  let nextXDot := s.xDot + tau * xAcc
  let nextTheta := s.theta + tau * s.thetaDot
  let nextThetaDot := s.thetaDot + tau * thetaAcc
  let done := decide (nextX < -xThreshold) || decide (nextX > xThreshold) ||
      decide (nextTheta < -thetaThreshold piQ) || decide (nextTheta > thetaThreshold piQ)
  ⟨⟨nextX, nextXDot, nextTheta, nextThetaDot⟩, 1, done⟩

end CartPoleEnv

/-- `Math.max(...logits)` over a JS array, as used by `softmax` in
`src/services/math.ts` (the empty case is never reached there). -/
def listMax : List ℚ → ℚ
  | [] => 0
  | a :: as => as.foldl max a

/-- `softmax` from `src/services/math.ts`: subtract the max logit, exponentiate
(`expQ` stands for `Math.exp`), divide by the sum. -/
def softmax (expQ : ℚ → ℚ) (logits : List ℚ) : List ℚ :=
  let maxLogit := listMax logits
  let exps := logits.map fun l => expQ (l - maxLogit)
  let sumExps := exps.sum
  exps.map fun e => e / sumExps

/-- Activation snapshot returned by `predict`
(fields as in `LayerActivations` of `src/types.ts`). -/
structure LayerActivations where
  input : List ℚ
  hidden : List ℚ
  output : List ℚ
deriving DecidableEq

/-- The `PolicyGradientAgent` state: hyperparameters, the four parameter
arrays, and the five parallel episode-memory arrays. -/
structure Agent where
  hiddenSize : ℕ
  learningRate : ℚ
  gamma : ℚ
  w1 : List (List ℚ)
  b1 : List ℚ
  w2 : List (List ℚ)
  b2 : List ℚ
  episodeStates : List (List ℚ)
  episodeHiddens : List (List ℚ)
  episodeProbs : List (List ℚ)
  episodeActions : List ℚ
  episodeRewards : List ℚ
deriving DecidableEq

/-- Matrix entry read `m[i][j]` on a JS 2-D array. -/
def entry (m : List (List ℚ)) (i j : ℕ) : ℚ := (m.getD i []).getD j 0

/-- `resetMemory` from the source: all five episode arrays become empty. -/
def Agent.resetMemory (a : Agent) : Agent :=
  { a with
    episodeStates := []
    episodeHiddens := []
    episodeProbs := []
    episodeActions := []
    episodeRewards := [] }

/-- `storeStep` from the source: push one aligned entry onto each of the five
episode arrays. -/
def Agent.storeStep (a : Agent) (acts : LayerActivations) (action reward : ℚ) : Agent :=
  { a with
    episodeStates := a.episodeStates ++ [acts.input]
    episodeHiddens := a.episodeHiddens ++ [acts.hidden]
    episodeProbs := a.episodeProbs ++ [acts.output]
    episodeActions := a.episodeActions ++ [action]
    episodeRewards := a.episodeRewards ++ [reward] }

/-- The hidden-layer computation of `predict`:
`this.b1.map((b, hIdx) => tanh(b + sum_i x[i] * w1[i][hIdx]))`
(the inner loop bound `inputSize` is the constant 4 in the source). -/
def hiddenLayer (tanhQ : ℚ → ℚ) (w1 : List (List ℚ)) (b1 : List ℚ) (x : List ℚ) : List ℚ :=
  b1.mapIdx fun hIdx b => tanhQ (b + ∑ i ∈ Finset.range 4, x.getD i 0 * entry w1 i hIdx)

/-- The output-logit computation of `predict`:
`this.b2.map((b, oIdx) => b + sum_h hidden[h] * w2[h][oIdx])`
with the inner loop bounded by `this.hiddenSize`. -/
def logitsLayer (hiddenSize : ℕ) (w2 : List (List ℚ)) (b2 : List ℚ) (hidden : List ℚ) : List ℚ :=
  b2.mapIdx fun oIdx b => b + ∑ h ∈ Finset.range hiddenSize, hidden.getD h 0 * entry w2 h oIdx

/-- `predict` from the source: forward pass and action sampling.  `tanhQ` and
`expQ` stand for `Math.tanh` and `Math.exp`; `u` stands for the
`Math.random()` draw used in `Math.random() < probs[0] ? 0 : 1`. -/
def Agent.predict (tanhQ expQ : ℚ → ℚ) (u : ℚ) (a : Agent) (s : CartPoleState) :
    ℚ × LayerActivations :=
  let x := [s.x, s.xDot, s.theta, s.thetaDot]
  let hidden := hiddenLayer tanhQ a.w1 a.b1 x
  let probs := softmax expQ (logitsLayer a.hiddenSize a.w2 a.b2 hidden)
  let action : ℚ := if u < probs.getD 0 0 then 0 else 1
  (action, ⟨x, hidden, probs⟩)

/-- The backward accumulation of discounted returns in `train`:
`runningAdd = runningAdd * gamma + rewards[t]` for `t` from `N-1` down to `0`,
written as structural recursion on the reward list. -/
def computeReturns (gamma : ℚ) : List ℚ → List ℚ
  | [] => []
  | r :: rest =>
    let tail := computeReturns gamma rest
    (r + gamma * tail.headD 0) :: tail

/-- The return-normalization step of `train`: subtract the mean, divide by the
population standard deviation, substituting 1 when the computed standard
deviation is 0 (the `|| 1` of the source; `sqrtQ` stands for `Math.sqrt`). -/
def advantages (sqrtQ : ℚ → ℚ) (gamma : ℚ) (rewards : List ℚ) : List ℚ :=
  let N : ℚ := (rewards.length : ℚ)
  let returns := computeReturns gamma rewards
  let mean := returns.sum / N
  let std0 := sqrtQ ((returns.map fun r => (r - mean) ^ 2).sum / N)
  let std := if std0 = 0 then 1 else std0
  returns.map fun r => (r - mean) / std

/-- Specified sample mean of the discounted returns, per the claim wording. -/
def meanSpec (gamma : ℚ) (rewards : List ℚ) : ℚ :=
  (computeReturns gamma rewards).sum / (rewards.length : ℚ)

/-- Specified population standard deviation of the discounted returns
(sum of squared deviations divided by `N`, not `N - 1`), per the claim
wording; `sqrtQ` stands for `Math.sqrt`. -/
def sigmaSpec (sqrtQ : ℚ → ℚ) (gamma : ℚ) (rewards : List ℚ) : ℚ :=
  sqrtQ (((computeReturns gamma rewards).map
    fun G => (G - meanSpec gamma rewards) ^ 2).sum / (rewards.length : ℚ))

/-- Read of `this.episodeHiddens[t][h]` inside `train`. -/
def hidT (a : Agent) (t h : ℕ) : ℚ := (a.episodeHiddens.getD t []).getD h 0

/-- Read of `this.episodeStates[t][i]` inside `train`. -/
def inpT (a : Agent) (t i : ℕ) : ℚ := (a.episodeStates.getD t []).getD i 0

/-- Read of `this.episodeProbs[t][o]` inside `train`. -/
def probT (a : Agent) (t o : ℕ) : ℚ := (a.episodeProbs.getD t []).getD o 0

/-- Read of `this.episodeActions[t]` inside `train`. -/
def actT (a : Agent) (t : ℕ) : ℚ := a.episodeActions.getD t 0

/-- Read of `normReturns[t]` inside `train`. -/
def advT (sqrtQ : ℚ → ℚ) (a : Agent) (t : ℕ) : ℚ :=
  (advantages sqrtQ a.gamma a.episodeRewards).getD t 0

/-- `train` from the source.  The per-step quantities follow the source loops:
`dLogits[o] = prob[o] - (action === o ? 1 : 0)`, the gradient term
`dLogits[o] * adv`, the hidden error
`dHidden[h] = (sum_o dLogits[o] * adv * w2[h][o]) * (1 - hidden[h]*hidden[h])`,
the accumulations over `t`, the updates `param -= learningRate * grad`, and
the final `resetMemory()`.  The update loops over `inputSize`, `hiddenSize`
and `outputSize` are modelled by updating every entry of the stored arrays. -/
def Agent.train (sqrtQ : ℚ → ℚ) (a : Agent) : Agent :=
  let N := a.episodeRewards.length
  let dLogits := fun t (o : ℕ) => probT a t o - if actT a t = (o : ℚ) then 1 else 0
  let dHidden := fun t h =>
    (∑ o ∈ Finset.range 2, dLogits t o * advT sqrtQ a t * entry a.w2 h o) *
      (1 - hidT a t h * hidT a t h)
  Agent.resetMemory
    { a with
      w1 := a.w1.mapIdx fun i row => row.mapIdx fun j w =>
        w - a.learningRate * ∑ t ∈ Finset.range N, inpT a t i * dHidden t j
      b1 := a.b1.mapIdx fun h b =>
        b - a.learningRate * ∑ t ∈ Finset.range N, dHidden t h
      w2 := a.w2.mapIdx fun h row => row.mapIdx fun o w =>
        w - a.learningRate * ∑ t ∈ Finset.range N, hidT a t h * (dLogits t o * advT sqrtQ a t)
      b2 := a.b2.mapIdx fun o b =>
        b - a.learningRate * ∑ t ∈ Finset.range N, dLogits t o * advT sqrtQ a t }

/-- Specified one-hot encoding of the stored action over the two output units,
per the claim wording `onehot(action[t])`. -/
def onehotQ (action : ℚ) (o : ℕ) : ℚ := if action = (o : ℚ) then 1 else 0

/-- Specified output-layer error signal of the claim:
`(p[t] - onehot(action[t])) * advantage[t]` per output unit. -/
def errSpec (sqrtQ : ℚ → ℚ) (a : Agent) (t o : ℕ) : ℚ :=
  (probT a t o - onehotQ (actT a t) o) * advT sqrtQ a t

/-- Specified hidden-layer error of the claim: the output error propagated
through `W2` times the tanh derivative `1 - h ^ 2`. -/
def dHiddenSpec (sqrtQ : ℚ → ℚ) (a : Agent) (t h : ℕ) : ℚ :=
  (∑ o ∈ Finset.range 2, entry a.w2 h o * errSpec sqrtQ a t o) * (1 - hidT a t h ^ 2)

/-- Specified accumulated `W2` gradient of the claim: outer product of the
stored hidden activations with the output error, summed over all `t`. -/
def gradW2Spec (sqrtQ : ℚ → ℚ) (a : Agent) (h o : ℕ) : ℚ :=
  ∑ t ∈ Finset.range a.episodeRewards.length, hidT a t h * errSpec sqrtQ a t o

/-- Specified accumulated `b2` gradient of the claim. -/
def gradB2Spec (sqrtQ : ℚ → ℚ) (a : Agent) (o : ℕ) : ℚ :=
  ∑ t ∈ Finset.range a.episodeRewards.length, errSpec sqrtQ a t o

/-- Specified accumulated `W1` gradient of the claim. -/
def gradW1Spec (sqrtQ : ℚ → ℚ) (a : Agent) (i h : ℕ) : ℚ :=
  ∑ t ∈ Finset.range a.episodeRewards.length, inpT a t i * dHiddenSpec sqrtQ a t h

/-- Specified accumulated `b1` gradient of the claim. -/
def gradB1Spec (sqrtQ : ℚ → ℚ) (a : Agent) (h : ℕ) : ℚ :=
  ∑ t ∈ Finset.range a.episodeRewards.length, dHiddenSpec sqrtQ a t h

/-- The equal-length invariant of the five parallel episode arrays. -/
def aligned (a : Agent) : Prop :=
  a.episodeStates.length = a.episodeRewards.length ∧
  a.episodeHiddens.length = a.episodeRewards.length ∧
  a.episodeProbs.length = a.episodeRewards.length ∧
  a.episodeActions.length = a.episodeRewards.length

instance (a : Agent) : Decidable (aligned a) := by
  unfold aligned; infer_instance

/-- One external call into the agent's episode memory: either a `storeStep`
or a `train`. -/
inductive AgentOp where
  | store : LayerActivations → ℚ → ℚ → AgentOp
  | update : AgentOp

/-- Run an interleaved sequence of `storeStep` and `train` calls. -/
def runOps (sqrtQ : ℚ → ℚ) (a : Agent) : List AgentOp → Agent
  | [] => a
  | AgentOp.store acts act r :: ops => runOps sqrtQ (a.storeStep acts act r) ops
  | AgentOp.update :: ops => runOps sqrtQ (a.train sqrtQ) ops

/-- Reference/heap model for `getWeights`: in JavaScript the fields `w1`, `b1`,
`w2`, `b2` of the agent hold references to heap-allocated arrays; this record
holds those references (heap addresses). -/
structure AgentRefs where
  w1 : ℕ
  b1 : ℕ
  w2 : ℕ
  b2 : ℕ
deriving DecidableEq

/-- The heap of JS arrays: 2-D number arrays and 1-D number arrays by address. -/
structure JSHeap where
  mat : ℕ → List (List ℚ)
  vec : ℕ → List ℚ

/-- `getWeights` from the source:
`return { w1: this.w1, b1: this.b1, w2: this.w2, b2: this.b2 }` builds a new
object whose four fields are the same array references as the live
parameters; no array is copied. -/
def getWeights (a : AgentRefs) : AgentRefs :=
  { w1 := a.w1, b1 := a.b1, w2 := a.w2, b2 := a.b2 }

/-- A caller-side mutation of a 2-D array through a reference, e.g.
`view.w1[0][0] = v` writ large: replace the array stored at address `r`. -/
def writeMat (h : JSHeap) (r : ℕ) (v : List (List ℚ)) : JSHeap :=
  { h with mat := fun n => if n = r then v else h.mat n }

/-- A concrete agent with an empty episode buffer, used to instantiate
hypotheses of the theorems below. -/
def emptyAgent : Agent :=
  { hiddenSize := 1
    learningRate := 1/100
    gamma := 99/100
    w1 := [[1], [0], [0], [0]]
    b1 := [0]
    w2 := [[2, 3]]
    b2 := [4, 5]
    episodeStates := []
    episodeHiddens := []
    episodeProbs := []
    episodeActions := []
    episodeRewards := [] }

/-- A concrete agent with hidden width 1 and a buffered one-step trajectory,
used to instantiate hypotheses of the theorems below. -/
def sampleAgent : Agent :=
  { hiddenSize := 1
    learningRate := 1/100
    gamma := 99/100
    w1 := [[1], [0], [0], [0]]
    b1 := [0]
    w2 := [[1, 0]]
    b2 := [0, 0]
    episodeStates := [[1, 0, 0, 0]]
    episodeHiddens := [[1/2]]
    episodeProbs := [[1/2, 1/2]]
    episodeActions := [0]
    episodeRewards := [1] }

/-! ### Helper lemmas -/

theorem headD_eq_getD (l : List ℚ) : l.headD 0 = l.getD 0 0 := by
  cases l <;> rfl

theorem getD_mapIdx {α β : Type} (f : ℕ → α → β) (l : List α) (i : ℕ) (hi : i < l.length)
    (d : β) (d2 : α) : (l.mapIdx f).getD i d = f i (l.getD i d2) := by
  rw [List.getD_eq_getElem l d2 hi, List.getD_eq_getElem _ d (by simpa using hi),
    List.getElem_mapIdx]

theorem getD_map (f : ℚ → ℚ) (l : List ℚ) (i : ℕ) (hi : i < l.length) (d d2 : ℚ) :
    (l.map f).getD i d = f (l.getD i d2) := by
  rw [List.getD_eq_getElem l d2 hi, List.getD_eq_getElem _ d (by simpa using hi),
    List.getElem_map]

theorem mapIdx_const_id {α : Type} (l : List α) : (l.mapIdx fun _ a => a) = l := by
  induction l with
  | nil => rfl
  | cons a as ih => simp [List.mapIdx_cons, ih]

theorem computeReturns_length (gamma : ℚ) (l : List ℚ) :
    (computeReturns gamma l).length = l.length := by
  induction l with
  | nil => rfl
  | cons r rest ih => simp [computeReturns, ih]

theorem computeReturns_last (gamma : ℚ) (l : List ℚ) (h : l ≠ []) :
    (computeReturns gamma l).getD (l.length - 1) 0 = l.getD (l.length - 1) 0 := by
  induction l with
  | nil => exact absurd rfl h
  | cons r rest ih =>
    cases rest with
    | nil => simp [computeReturns]
    | cons r2 rest2 =>
      have key := ih (by simp)
      simp only [List.length_cons, Nat.add_sub_cancel] at key ⊢
      simpa only [computeReturns, List.getD_cons_succ] using key

theorem computeReturns_step (gamma : ℚ) (l : List ℚ) (t : ℕ) (h : t + 1 < l.length) :
    (computeReturns gamma l).getD t 0
      = l.getD t 0 + gamma * (computeReturns gamma l).getD (t + 1) 0 := by
  induction l generalizing t with
  | nil => simp at h
  | cons r rest ih =>
    cases t with
    | zero =>
      simp only [computeReturns, List.getD_cons_zero, List.getD_cons_succ]
      rw [headD_eq_getD]
    | succ t2 =>
      have h2 : t2 + 1 < rest.length := by simpa using h
      simp only [computeReturns, List.getD_cons_succ]
      exact ih t2 h2

theorem sum_of_all_eq {l : List ℚ} {c : ℚ} (h : ∀ x ∈ l, x = c) :
    l.sum = l.length * c := by
  induction l with
  | nil => simp
  | cons a as ih =>
    have ha : a = c := h a (by simp)
    have hrest : ∀ x ∈ as, x = c := fun x hx => h x (by simp [hx])
    rw [List.sum_cons, ih hrest, ha, List.length_cons]
    push_cast
    ring

theorem foldl_max_le (l : List ℚ) (a : ℚ) :
    a ≤ l.foldl max a ∧ ∀ x ∈ l, x ≤ l.foldl max a := by
  induction l generalizing a with
  | nil => exact ⟨le_refl a, by simp⟩
  | cons b bs ih =>
    obtain ⟨h1, h2⟩ := ih (max a b)
    simp only [List.foldl_cons]
    refine ⟨le_trans (le_max_left a b) h1, ?_⟩
    intro x hx
    rcases List.mem_cons.mp hx with rfl | hx2
    · exact le_trans (le_max_right a x) h1
    · exact h2 x hx2

theorem foldl_max_mem (l : List ℚ) (a : ℚ) : l.foldl max a = a ∨ l.foldl max a ∈ l := by
  induction l generalizing a with
  | nil => left; rfl
  | cons b bs ih =>
    simp only [List.foldl_cons]
    rcases ih (max a b) with h | h
    · rcases max_choice a b with hab | hab
      · left; rw [h, hab]
      · right; rw [h, hab]; exact List.mem_cons_self b bs
    · right; exact List.mem_cons_of_mem b h

theorem listMax_spec (l : List ℚ) (h : l ≠ []) :
    listMax l ∈ l ∧ ∀ x ∈ l, x ≤ listMax l := by
  cases l with
  | nil => exact absurd rfl h
  | cons a as =>
    constructor
    · rcases foldl_max_mem as a with h2 | h2
      · rw [listMax, h2]; exact List.mem_cons_self a as
      · rw [listMax]; exact List.mem_cons_of_mem a h2
    · intro x hx
      rcases List.mem_cons.mp hx with rfl | hx2
      · rw [listMax]; exact (foldl_max_le as x).1
      · rw [listMax]; exact (foldl_max_le as a).2 x hx2

theorem softmax_eq_map (expQ : ℚ → ℚ) (l : List ℚ) :
    softmax expQ l
      = l.map fun z => expQ (z - listMax l) / (l.map fun w => expQ (w - listMax l)).sum := by
  simp only [softmax, List.map_map]
  rfl

theorem gradTerm_eq (sqrtQ : ℚ → ℚ) (a : Agent) (t o : ℕ) :
    (probT a t o - if actT a t = (o : ℚ) then 1 else 0) * advT sqrtQ a t
      = errSpec sqrtQ a t o := rfl

theorem dHidden_eq (sqrtQ : ℚ → ℚ) (a : Agent) (t h : ℕ) :
    (∑ o ∈ Finset.range 2,
        (probT a t o - if actT a t = (o : ℚ) then 1 else 0) * advT sqrtQ a t *
          ((a.w2.getD h []).getD o 0)) *
      (1 - hidT a t h * hidT a t h) = dHiddenSpec sqrtQ a t h := by
  simp only [dHiddenSpec, errSpec, onehotQ, entry, Finset.sum_range_succ, Finset.sum_range_zero]
  ring

/-! ### Claim theorems -/

/-- Claim C2: `train`'s discounted returns (factored out here as
`computeReturns`, the backward `runningAdd` loop of the source) satisfy
`G[N-1] = r[N-1]` and `G[t] = r[t] + gamma * G[t+1]` for `t < N-1`, and for
`N = 3`, all rewards `1`, `gamma = 0.99` the return at `t = 0` is exactly
`2.9701`. -/
theorem c2_returns_backward_accumulation (gamma : ℚ) (rewards : List ℚ) :
    (computeReturns gamma rewards).length = rewards.length
    ∧ (rewards ≠ [] →
        (computeReturns gamma rewards).getD (rewards.length - 1) 0
          = rewards.getD (rewards.length - 1) 0)
    ∧ (∀ t, t + 1 < rewards.length →
        (computeReturns gamma rewards).getD t 0
          = rewards.getD t 0 + gamma * (computeReturns gamma rewards).getD (t + 1) 0)
    ∧ computeReturns (99/100) [1, 1, 1] = [29701/10000, 199/100, 1] := by
  refine ⟨computeReturns_length gamma rewards, computeReturns_last gamma rewards,
    computeReturns_step gamma rewards, ?_⟩
  norm_num [computeReturns]

/-- Witness for C2 at `gamma = 0.99`, `rewards = [1, 1, 1]`, `t = 0`. -/
theorem c2_witness :
    (([1, 1, 1] : List ℚ) ≠ [] ∧ 0 + 1 < ([1, 1, 1] : List ℚ).length)
    ∧ (computeReturns (99/100) [1, 1, 1]).getD 0 0
        = ([1, 1, 1] : List ℚ).getD 0 0
            + (99/100) * (computeReturns (99/100) [1, 1, 1]).getD (0 + 1) 0 :=
  ⟨⟨by simp, by simp⟩,
    (c2_returns_backward_accumulation (99/100) [1, 1, 1]).2.2.1 0 (by simp)⟩

/-- Claim C3: the advantages used by `train` are
`(G[t] - mean) / sigma` with `mean` the sample mean and `sigma` the population
standard deviation of the returns (dividing the sum of squared deviations by
`N`, not `N - 1`), with `sigma` replaced by `1` when it is exactly `0`; a
trajectory with identical returns therefore yields advantages that are all
exactly `0` (in this exact-rational model there is no NaN to produce).  The
hypothesis `sqrtQ 0 = 0` records that `Math.sqrt(0) = 0`. -/
theorem c3_advantage_normalization (sqrtQ : ℚ → ℚ) (gamma : ℚ) (rewards : List ℚ)
    (hne : rewards ≠ []) (hsqrt0 : sqrtQ 0 = 0) :
    (advantages sqrtQ gamma rewards).length = rewards.length
    ∧ (∀ t, t < rewards.length →
        (advantages sqrtQ gamma rewards).getD t 0
          = ((computeReturns gamma rewards).getD t 0 - meanSpec gamma rewards)
              / (if sigmaSpec sqrtQ gamma rewards = 0 then 1 else sigmaSpec sqrtQ gamma rewards))
    ∧ (∀ c, (∀ G ∈ computeReturns gamma rewards, G = c) →
        ∀ v ∈ advantages sqrtQ gamma rewards, v = 0) := by
  have hlen : (computeReturns gamma rewards).length = rewards.length :=
    computeReturns_length gamma rewards
  refine ⟨?_, ?_, ?_⟩
  · simp [advantages, hlen]
  · intro t ht
    have ht2 : t < (computeReturns gamma rewards).length := by rw [hlen]; exact ht
    simp only [advantages]
    rw [getD_map _ _ _ ht2 0 0]
    simp only [meanSpec, sigmaSpec]
  · intro c hc v hv
    have hN : (0 : ℚ) < (rewards.length : ℚ) := by
      have := List.length_pos.mpr hne
      exact_mod_cast this
    simp only [advantages, List.mem_map] at hv
    obtain ⟨G, hG, rfl⟩ := hv
    have hmean : (computeReturns gamma rewards).sum / (rewards.length : ℚ) = c := by
      rw [sum_of_all_eq hc, hlen]
      field_simp
    have hv0 : ((computeReturns gamma rewards).map
        fun r => (r - (computeReturns gamma rewards).sum / (rewards.length : ℚ)) ^ 2).sum = 0 := by
      have hall : ∀ x ∈ (computeReturns gamma rewards).map
          fun r => (r - (computeReturns gamma rewards).sum / (rewards.length : ℚ)) ^ 2,
          x = 0 := by
        intro x hx
        simp only [List.mem_map] at hx
        obtain ⟨G2, hG2, rfl⟩ := hx
        rw [hc G2 hG2, hmean]
        ring
      rw [sum_of_all_eq hall]
      ring
    rw [hv0, hmean, hc G hG]
    simp [hsqrt0]

/-- Witness for C3 at `sqrtQ = id`, `gamma = 0`, `rewards = [3, 3]` (all
returns equal `3`): every advantage is exactly `0`. -/
theorem c3_witness :
    ((([3, 3] : List ℚ) ≠ []) ∧ (fun q : ℚ => q) 0 = 0)
    ∧ ∀ v ∈ advantages (fun q => q) 0 [3, 3], v = 0 := by
  refine ⟨⟨by simp, rfl⟩, ?_⟩
  refine (c3_advantage_normalization (fun q => q) 0 [3, 3] (by simp) rfl).2.2 3 ?_
  intro G hG
  norm_num [computeReturns] at hG
  exact hG

/-- Claim C1: for a non-empty aligned buffered trajectory, `train` performs
the REINFORCE full-batch update: the output-layer error
`(p[t] - onehot(action[t])) * advantage[t]` is backpropagated to the `W2`/`b2`
gradients (outer product with the stored hidden activations, summed over `t`)
and through the hidden layer with the tanh derivative `1 - h ^ 2` to the
`W1`/`b1` gradients, and every parameter entry is decremented by
`learningRate` times its accumulated gradient. -/
theorem c1_reinforce_full_batch_update (sqrtQ : ℚ → ℚ) (a : Agent)
    (hne : a.episodeRewards ≠ [])
    (hstates : a.episodeStates.length = a.episodeRewards.length)
    (hhiddens : a.episodeHiddens.length = a.episodeRewards.length)
    (hprobs : a.episodeProbs.length = a.episodeRewards.length)
    (hactions : a.episodeActions.length = a.episodeRewards.length) :
    (∀ i j, i < a.w1.length → j < (a.w1.getD i []).length →
        entry (a.train sqrtQ).w1 i j
          = entry a.w1 i j - a.learningRate * gradW1Spec sqrtQ a i j)
    ∧ (∀ h, h < a.b1.length →
        (a.train sqrtQ).b1.getD h 0
          = a.b1.getD h 0 - a.learningRate * gradB1Spec sqrtQ a h)
    ∧ (∀ h o, h < a.w2.length → o < (a.w2.getD h []).length →
        entry (a.train sqrtQ).w2 h o
          = entry a.w2 h o - a.learningRate * gradW2Spec sqrtQ a h o)
    ∧ (∀ o, o < a.b2.length →
        (a.train sqrtQ).b2.getD o 0
          = a.b2.getD o 0 - a.learningRate * gradB2Spec sqrtQ a o) := by
  refine ⟨?_, ?_, ?_, ?_⟩
  · intro i j hi hj
    simp only [Agent.train, Agent.resetMemory, entry]
    rw [getD_mapIdx _ _ _ hi [] [], getD_mapIdx _ _ _ hj 0 0]
    simp only [gradW1Spec, dHidden_eq]
  · intro h hh
    simp only [Agent.train, Agent.resetMemory, entry]
    rw [getD_mapIdx _ _ _ hh 0 0]
    simp only [gradB1Spec, dHidden_eq]
  · intro h o hh ho
    simp only [Agent.train, Agent.resetMemory, entry]
    rw [getD_mapIdx _ _ _ hh [] [], getD_mapIdx _ _ _ ho 0 0]
    simp only [gradW2Spec, gradTerm_eq]
  · intro o ho
    simp only [Agent.train, Agent.resetMemory]
    rw [getD_mapIdx _ _ _ ho 0 0]
    simp only [gradB2Spec, gradTerm_eq]

/-- Witness for C1 at the concrete one-step agent `sampleAgent` with
`sqrtQ = fun _ => 0`. -/
theorem c1_witness :
    (sampleAgent.episodeRewards ≠ []
      ∧ sampleAgent.episodeStates.length = sampleAgent.episodeRewards.length
      ∧ sampleAgent.episodeHiddens.length = sampleAgent.episodeRewards.length
      ∧ sampleAgent.episodeProbs.length = sampleAgent.episodeRewards.length
      ∧ sampleAgent.episodeActions.length = sampleAgent.episodeRewards.length)
    ∧ ∀ o, o < sampleAgent.b2.length →
        (sampleAgent.train (fun _ => 0)).b2.getD o 0
          = sampleAgent.b2.getD o 0
              - sampleAgent.learningRate * gradB2Spec (fun _ => 0) sampleAgent o :=
  ⟨⟨by simp [sampleAgent], by simp [sampleAgent], by simp [sampleAgent],
      by simp [sampleAgent], by simp [sampleAgent]⟩,
    (c1_reinforce_full_batch_update (fun _ => 0) sampleAgent (by simp [sampleAgent])
      (by simp [sampleAgent]) (by simp [sampleAgent]) (by simp [sampleAgent])
      (by simp [sampleAgent])).2.2.2⟩

/-- Claim C9: calling `train` on an empty trajectory leaves all four parameter
arrays exactly unchanged (every accumulated gradient is an empty sum) and
leaves the episode buffer empty.  In this exact-rational model the JS `NaN`
produced by the `0/0` mean never reaches a parameter, because every
per-time-step loop body is vacuous. -/
theorem c9_empty_train_noop (sqrtQ : ℚ → ℚ) (a : Agent)
    (h : a.episodeRewards = []) :
    (a.train sqrtQ).w1 = a.w1 ∧ (a.train sqrtQ).b1 = a.b1
    ∧ (a.train sqrtQ).w2 = a.w2 ∧ (a.train sqrtQ).b2 = a.b2
    ∧ (a.train sqrtQ).episodeStates = [] ∧ (a.train sqrtQ).episodeHiddens = []
    ∧ (a.train sqrtQ).episodeProbs = [] ∧ (a.train sqrtQ).episodeActions = []
    ∧ (a.train sqrtQ).episodeRewards = [] := by
  refine ⟨?_, ?_, ?_, ?_, rfl, rfl, rfl, rfl, rfl⟩ <;>
    simp [Agent.train, Agent.resetMemory, h, mapIdx_const_id]

/-- Witness for C9 at the concrete buffer-free agent `emptyAgent`. -/
theorem c9_witness :
    emptyAgent.episodeRewards = []
    ∧ ((emptyAgent.train (fun _ => 0)).w1 = emptyAgent.w1
      ∧ (emptyAgent.train (fun _ => 0)).b1 = emptyAgent.b1
      ∧ (emptyAgent.train (fun _ => 0)).w2 = emptyAgent.w2
      ∧ (emptyAgent.train (fun _ => 0)).b2 = emptyAgent.b2
      ∧ (emptyAgent.train (fun _ => 0)).episodeStates = []
      ∧ (emptyAgent.train (fun _ => 0)).episodeHiddens = []
      ∧ (emptyAgent.train (fun _ => 0)).episodeProbs = []
      ∧ (emptyAgent.train (fun _ => 0)).episodeActions = []
      ∧ (emptyAgent.train (fun _ => 0)).episodeRewards = []) :=
  ⟨rfl, c9_empty_train_noop (fun _ => 0) emptyAgent rfl⟩

/-- Claim C7: each `storeStep` appends exactly one entry to every one of the
five episode sequences, `train` ends with all five simultaneously empty, and
after any interleaved sequence of `storeStep` and `train` calls the
equal-length invariant `aligned` is preserved. -/
theorem c7_buffer_parallel_invariant :
    (∀ (a : Agent) (acts : LayerActivations) (act r : ℚ),
        (a.storeStep acts act r).episodeStates.length = a.episodeStates.length + 1
        ∧ (a.storeStep acts act r).episodeHiddens.length = a.episodeHiddens.length + 1
        ∧ (a.storeStep acts act r).episodeProbs.length = a.episodeProbs.length + 1
        ∧ (a.storeStep acts act r).episodeActions.length = a.episodeActions.length + 1
        ∧ (a.storeStep acts act r).episodeRewards.length = a.episodeRewards.length + 1)
    ∧ (∀ (sqrtQ : ℚ → ℚ) (a : Agent),
        (a.train sqrtQ).episodeStates = [] ∧ (a.train sqrtQ).episodeHiddens = []
        ∧ (a.train sqrtQ).episodeProbs = [] ∧ (a.train sqrtQ).episodeActions = []
        ∧ (a.train sqrtQ).episodeRewards = [])
    ∧ (∀ (sqrtQ : ℚ → ℚ) (ops : List AgentOp) (a : Agent),
        aligned a → aligned (runOps sqrtQ a ops)) := by
  refine ⟨?_, ?_, ?_⟩
  · intro a acts act r
    simp [Agent.storeStep]
  · intro sqrtQ a
    exact ⟨rfl, rfl, rfl, rfl, rfl⟩
  · intro sqrtQ ops
    induction ops with
    | nil => intro a hA; exact hA
    | cons op ops ih =>
      intro a hA
      cases op with
      | store acts act r =>
        refine ih (a.storeStep acts act r) ?_
        obtain ⟨h1, h2, h3, h4⟩ := hA
        simp [aligned, Agent.storeStep, h1, h2, h3, h4]
      | update =>
        exact ih (a.train sqrtQ) ⟨rfl, rfl, rfl, rfl⟩

/-- Witness for C7: the invariant holds for the concrete agent `emptyAgent`
and is preserved by a concrete sequence of calls ending in `train`. -/
theorem c7_witness :
    aligned emptyAgent
    ∧ aligned (runOps (fun _ => 0) emptyAgent
        [AgentOp.store ⟨[0, 0, 0, 0], [0], [1/2, 1/2]⟩ 0 1, AgentOp.update]) :=
  ⟨⟨rfl, rfl, rfl, rfl⟩,
    c7_buffer_parallel_invariant.2.2 (fun _ => 0)
      [AgentOp.store ⟨[0, 0, 0, 0], [0], [1/2, 1/2]⟩ 0 1, AgentOp.update]
      emptyAgent ⟨rfl, rfl, rfl, rfl⟩⟩

/-- Claim C4: `step` computes `temp`, `thetaAcc` and `xAcc` by the
Barto-Sutton-Anderson formulas with the literal constants of the claim
(force of magnitude `10` signed by the action, `0.05`, `1.1`, `9.8`, `0.5`,
`4/3`, `0.1`) and advances the state by one explicit Euler step of length
`tau = 0.02` using the pre-update velocities. -/
theorem c4_step_dynamics (sinQ cosQ : ℚ → ℚ) (piQ : ℚ) (s : CartPoleState) (action : ℚ) :
    let force : ℚ := if action = 1 then 10 else -10
    let temp := (force + 0.05 * s.thetaDot ^ 2 * sinQ s.theta) / 1.1
    let thetaAcc := (9.8 * sinQ s.theta - cosQ s.theta * temp) /
        (0.5 * (4 / 3 - 0.1 * cosQ s.theta ^ 2 / 1.1))
    let xAcc := temp - 0.05 * thetaAcc * cosQ s.theta / 1.1
    (CartPoleEnv.step sinQ cosQ piQ s action).nextState.x = s.x + 0.02 * s.xDot
    ∧ (CartPoleEnv.step sinQ cosQ piQ s action).nextState.xDot = s.xDot + 0.02 * xAcc
    ∧ (CartPoleEnv.step sinQ cosQ piQ s action).nextState.theta
        = s.theta + 0.02 * s.thetaDot
    ∧ (CartPoleEnv.step sinQ cosQ piQ s action).nextState.thetaDot
        = s.thetaDot + 0.02 * thetaAcc := by
  intro force temp thetaAcc xAcc
  refine ⟨?_, ?_, ?_, ?_⟩ <;>
    simp only [CartPoleEnv.step, CartPoleEnv.forceOf, CartPoleEnv.gravity,
      CartPoleEnv.massPole, CartPoleEnv.totalMass, CartPoleEnv.length,
      CartPoleEnv.poleMassLength, CartPoleEnv.forceMag, CartPoleEnv.tau,
      force, temp, thetaAcc, xAcc] <;>
    ring

/-- Claim C6: the `done` flag of `step` is true exactly when the newly
integrated state is strictly beyond `±2.4` in cart position or strictly
beyond `±12` degrees in radians (`12 * (piQ / 180)`, `piQ` standing for
`Math.PI`) in pole angle; a post-step state with `x = 2.41` reports
`done = true` and a post-step state with `x = 0`, `theta = 0` reports
`done = false`. -/
theorem c6_termination_flag (sinQ cosQ : ℚ → ℚ) (piQ : ℚ) (s : CartPoleState) (action : ℚ) :
    ((CartPoleEnv.step sinQ cosQ piQ s action).done = true ↔
      (s.x + 0.02 * s.xDot < -2.4 ∨ 2.4 < s.x + 0.02 * s.xDot
        ∨ s.theta + 0.02 * s.thetaDot < -(12 * (piQ / 180))
        ∨ 12 * (piQ / 180) < s.theta + 0.02 * s.thetaDot))
    ∧ (CartPoleEnv.step sinQ cosQ piQ ⟨2.41, 0, 0, 0⟩ action).done = true
    ∧ (0 < piQ → (CartPoleEnv.step sinQ cosQ piQ ⟨0, 0, 0, 0⟩ action).done = false) := by
  refine ⟨?_, ?_, ?_⟩
  · simp only [CartPoleEnv.step, CartPoleEnv.xThreshold, CartPoleEnv.thetaThreshold,
      CartPoleEnv.tau, Bool.or_eq_true, decide_eq_true_eq, gt_iff_lt]
    norm_num
    tauto
  · simp only [CartPoleEnv.step, CartPoleEnv.xThreshold, CartPoleEnv.thetaThreshold,
      CartPoleEnv.tau, Bool.or_eq_true, decide_eq_true_eq, gt_iff_lt]
    norm_num
  · intro hpi
    simp only [CartPoleEnv.step, CartPoleEnv.xThreshold, CartPoleEnv.thetaThreshold,
      CartPoleEnv.tau, Bool.or_eq_false_iff, decide_eq_false_iff_not, gt_iff_lt]
    norm_num
    all_goals linarith

/-- Witness for C6 with `piQ = 3 > 0` and zero functions for sin and cos. -/
theorem c6_witness :
    (0 : ℚ) < 3
    ∧ (CartPoleEnv.step (fun _ => 0) (fun _ => 0) 3 ⟨0, 0, 0, 0⟩ 0).done = false :=
  ⟨by norm_num,
    (c6_termination_flag (fun _ => 0) (fun _ => 0) 3 ⟨0, 0, 0, 0⟩ 0).2.2 (by norm_num)⟩

/-- Claim C10: every action value other than exactly `1` (including `0`, `2`
and `-1`) applies the leftward force `-10`; only action `1` applies `+10`;
`step` is total, so no action value is rejected, and any non-`1` action
produces exactly the same step result as action `0`. -/
theorem c10_nonone_action_is_left (action : ℚ) (hne : action ≠ 1) :
    CartPoleEnv.forceOf action = -10
    ∧ CartPoleEnv.forceOf 1 = 10
    ∧ CartPoleEnv.forceOf 0 = -10
    ∧ CartPoleEnv.forceOf 2 = -10
    ∧ CartPoleEnv.forceOf (-1) = -10
    ∧ ∀ (sinQ cosQ : ℚ → ℚ) (piQ : ℚ) (s : CartPoleState),
        CartPoleEnv.step sinQ cosQ piQ s action = CartPoleEnv.step sinQ cosQ piQ s 0 := by
  have h0 : CartPoleEnv.forceOf action = -10 := by
    norm_num [CartPoleEnv.forceOf, CartPoleEnv.forceMag, hne]
  refine ⟨h0, by norm_num [CartPoleEnv.forceOf, CartPoleEnv.forceMag],
    by norm_num [CartPoleEnv.forceOf, CartPoleEnv.forceMag],
    by norm_num [CartPoleEnv.forceOf, CartPoleEnv.forceMag],
    by norm_num [CartPoleEnv.forceOf, CartPoleEnv.forceMag], ?_⟩
  intro sinQ cosQ piQ s
  have h1 : CartPoleEnv.forceOf action = CartPoleEnv.forceOf 0 := by
    rw [h0]; norm_num [CartPoleEnv.forceOf, CartPoleEnv.forceMag]
  simp only [CartPoleEnv.step, h1]

/-- Witness for C10 at the out-of-domain action value `2`. -/
theorem c10_witness :
    (2 : ℚ) ≠ 1
    ∧ (CartPoleEnv.forceOf 2 = -10
      ∧ CartPoleEnv.forceOf 1 = 10
      ∧ CartPoleEnv.forceOf 0 = -10
      ∧ CartPoleEnv.forceOf 2 = -10
      ∧ CartPoleEnv.forceOf (-1) = -10
      ∧ ∀ (sinQ cosQ : ℚ → ℚ) (piQ : ℚ) (s : CartPoleState),
          CartPoleEnv.step sinQ cosQ piQ s 2 = CartPoleEnv.step sinQ cosQ piQ s 0) :=
  ⟨by norm_num, c10_nonone_action_is_left 2 (by norm_num)⟩

/-- Claim C5: `predict` computes the hidden activations as
`tanh(W1ᵀx + b1)` elementwise, the output logits as `W2ᵀh + b2`, the output
probabilities as the softmax with the maximum logit subtracted before
exponentiating, samples action `0` exactly when the uniform draw `u` falls
below `p[0]` (and `1` otherwise), and returns the activation snapshot
`(input, hidden, probabilities)`.  `predict` is a pure function of the agent:
no network parameter is written. -/
theorem c5_predict_forward_pass (tanhQ expQ : ℚ → ℚ) (u : ℚ) (a : Agent) (s : CartPoleState) :
    (a.predict tanhQ expQ u s).2.input = [s.x, s.xDot, s.theta, s.thetaDot]
    ∧ (∀ h, h < a.b1.length →
        (a.predict tanhQ expQ u s).2.hidden.getD h 0
          = tanhQ ((∑ i ∈ Finset.range 4,
              entry a.w1 i h * ([s.x, s.xDot, s.theta, s.thetaDot]).getD i 0)
              + a.b1.getD h 0))
    ∧ (a.predict tanhQ expQ u s).2.output
        = softmax expQ (logitsLayer a.hiddenSize a.w2 a.b2 (a.predict tanhQ expQ u s).2.hidden)
    ∧ (∀ o, o < a.b2.length →
        (logitsLayer a.hiddenSize a.w2 a.b2 (a.predict tanhQ expQ u s).2.hidden).getD o 0
          = (∑ h ∈ Finset.range a.hiddenSize,
              (a.predict tanhQ expQ u s).2.hidden.getD h 0 * entry a.w2 h o)
              + a.b2.getD o 0)
    ∧ (∀ (l : List ℚ), l ≠ [] →
        softmax expQ l
          = (l.map fun z => expQ (z - listMax l) / (l.map fun w => expQ (w - listMax l)).sum)
        ∧ listMax l ∈ l ∧ ∀ y ∈ l, y ≤ listMax l)
    ∧ (a.predict tanhQ expQ u s).1
        = (if u < (a.predict tanhQ expQ u s).2.output.getD 0 0 then 0 else 1)
    ∧ ((a.predict tanhQ expQ u s).1 = 0 ↔ u < (a.predict tanhQ expQ u s).2.output.getD 0 0) := by
  refine ⟨rfl, ?_, rfl, ?_, ?_, rfl, ?_⟩
  · intro h hh
    simp only [Agent.predict, hiddenLayer]
    rw [getD_mapIdx _ _ _ hh 0 0]
    congr 1
    simp only [Finset.sum_range_succ, Finset.sum_range_zero]
    ring
  · intro o ho
    simp only [Agent.predict, logitsLayer]
    rw [getD_mapIdx _ _ _ ho 0 0]
    exact add_comm _ _
  · intro l hl
    exact ⟨softmax_eq_map expQ l, (listMax_spec l hl).1, (listMax_spec l hl).2⟩
  · by_cases hc : u < (a.predict tanhQ expQ u s).2.output.getD 0 0 <;>
      simp only [Agent.predict] at hc ⊢ <;> simp [hc]

/-- Witness for C5: the softmax characterization at the concrete nonempty
logit list `[1]` and the hidden-unit formula at index `0` of `emptyAgent`. -/
theorem c5_witness :
    (([1] : List ℚ) ≠ [] ∧ 0 < emptyAgent.b1.length)
    ∧ (softmax (fun q => q) [1]
        = (([1] : List ℚ).map fun z =>
            (fun q : ℚ => q) (z - listMax [1])
              / (([1] : List ℚ).map fun w => (fun q : ℚ => q) (w - listMax [1])).sum)
      ∧ listMax [1] ∈ ([1] : List ℚ) ∧ ∀ y ∈ ([1] : List ℚ), y ≤ listMax [1])
    ∧ (emptyAgent.predict (fun q => q) (fun q => q) 0 ⟨0, 0, 0, 0⟩).2.hidden.getD 0 0
        = (fun q : ℚ => q) ((∑ i ∈ Finset.range 4,
            entry emptyAgent.w1 i 0 * ([(0 : ℚ), 0, 0, 0]).getD i 0)
            + emptyAgent.b1.getD 0 0) :=
  ⟨⟨by simp, by simp [emptyAgent]⟩,
    (c5_predict_forward_pass (fun q => q) (fun q => q) 0 emptyAgent ⟨0, 0, 0, 0⟩).2.2.2.2.1
      [1] (by simp),
    (c5_predict_forward_pass (fun q => q) (fun q => q) 0 emptyAgent ⟨0, 0, 0, 0⟩).2.1
      0 (by simp [emptyAgent])⟩

/-- Claim C8, amended: `getWeights` returns a fresh object whose four fields
are the very references of the agent's live parameter arrays (no copy is
made), so a caller-side write through the returned structure writes the
agent's live parameters. -/
theorem c8_get_weights_aliases (a : AgentRefs) :
    getWeights a = a
    ∧ ∀ (h : JSHeap) (v : List (List ℚ)),
        (writeMat h (getWeights a).w1 v).mat a.w1 = v := by
  refine ⟨rfl, ?_⟩
  intro h v
  simp [writeMat, getWeights]

/-- Counterexample to claim C8 as stated: mutating the structure returned by
`getWeights` does not leave the agent's live parameters unchanged — writing
`[[1]]` through the returned `w1` reference changes the array the agent's
`w1` field refers to from `[[0]]` to `[[1]]`. -/
theorem c8_counterexample :
    (writeMat ⟨fun _ => [[0]], fun _ => [0]⟩ (getWeights ⟨0, 1, 2, 3⟩).w1 [[1]]).mat
        (AgentRefs.mk 0 1 2 3).w1
      ≠ (JSHeap.mk (fun _ => [[0]]) (fun _ => [0])).mat (AgentRefs.mk 0 1 2 3).w1 := by
  simp only [writeMat, getWeights]
  norm_num
